import Mathlib

/-!
Verification development for the ai-code-review pipeline.

This file embeds, in Lean 4, the core pure logic of the repository:

* the diff filter (`CodeReviewer.filterDiffs` / `CodeReviewer.matchPatterns`
  from `src/core/reviewer.ts`),
* the prompt builders (`OpenAIProvider.buildReviewPrompt` /
  `OpenAIProvider.buildSummaryPrompt` from `src/ai/openai.ts`),
* the response parser (`OpenAIProvider.parseReviewResponse` and
  `OpenAIProvider.extractSummary`),
* the single-file review entry point (`CodeReviewer.reviewSingleFile`).

The source is TypeScript running on a JavaScript engine, so the embedding
models the relevant JavaScript runtime semantics explicitly:

* JSON values are modelled by the inductive `Json` (numbers as integers:
  fraction and exponent forms, and `\uXXXX` escapes outside the BMP, are
  outside the model — no claim depends on them).  `JSON.parse` is modelled
  by `jsonParse`, a recursive-descent parser for that JSON grammar.  Object field access `o.k` is modelled by
  `Json.getField` (an absent field, i.e. JavaScript `undefined`, is `none`).
* JavaScript truthiness is modelled by `jsTruthy` (with `none` = `undefined`
  falsy).
* The concrete regular expressions used by the source are each modelled by a
  dedicated scanning function whose semantics (leftmost match, greedy /
  lazy quantifiers with backtracking) is derived from the ECMAScript
  specification for that particular pattern; each such function carries a
  doc comment naming the regex it models.
* Strings are treated as sequences of Unicode scalar values; JavaScript
  strings are UTF-16, which only differs for astral characters in
  length-sensitive code (`extractSummary`'s 200-character bound), not in
  any of the substring / splitting behaviour proved about here.
-/

namespace AiCodeReview

/-- JavaScript whitespace as matched by `\s` and trimmed by `String.trim`
(the ASCII / Latin-1 part; the exotic Unicode space characters play no role
in the claims). -/
def jsWs (c : Char) : Bool :=
  c = ' ' || c = '\t' || c = '\n' || c = '\r' || c = '\x0b' || c = '\x0c' || c = '\xa0'

/-- A JSON value as produced by `JSON.parse`.  Object fields are kept in
source order; duplicate keys are resolved by `Json.getField` taking the
last binding, as `JSON.parse` does. -/
inductive Json where
  | null : Json
  | bool (b : Bool) : Json
  | num (n : ℤ) : Json
  | str (s : String) : Json
  | arr (elems : List Json) : Json
  | obj (fields : List (String × Json)) : Json
deriving Repr

mutual

/-- Structural equality test for `Json` (needed because `deriving
DecidableEq` does not handle the nested lists). -/
def Json.beq : Json → Json → Bool
  | .null, .null => true
  | .bool a, .bool b => a = b
  | .num a, .num b => a = b
  | .str a, .str b => a = b
  | .arr xs, .arr ys => Json.beqList xs ys
  | .obj xs, .obj ys => Json.beqFields xs ys
  | _, _ => false

/-- Elementwise `Json.beq` on lists. -/
def Json.beqList : List Json → List Json → Bool
  | [], [] => true
  | x :: xs, y :: ys => Json.beq x y && Json.beqList xs ys
  | _, _ => false

/-- Elementwise `Json.beq` on association lists. -/
def Json.beqFields : List (String × Json) → List (String × Json) → Bool
  | [], [] => true
  | (k₁, v₁) :: xs, (k₂, v₂) :: ys => k₁ = k₂ && Json.beq v₁ v₂ && Json.beqFields xs ys
  | _, _ => false

end

theorem Json.beq_iff_eq : ∀ a b : Json, Json.beq a b = true ↔ a = b := by
  apply Json.beq.induct
    (fun a b => Json.beq a b = true ↔ a = b)
    (fun xs ys => Json.beqFields xs ys = true ↔ xs = ys)
    (fun xs ys => Json.beqList xs ys = true ↔ xs = ys)
  · simp [Json.beq]
  · intro a b; simp [Json.beq]
  · intro a b; simp [Json.beq]
  · intro a b; simp [Json.beq]
  · intro xs ys ih; simp [Json.beq, ih]
  · intro xs ys ih; simp [Json.beq, ih]
  · intro t x h₁ h₂ h₃ h₄ h₅ h₆
    cases t <;> cases x <;>
      first
        | exact (h₁ rfl rfl).elim
        | exact (h₂ _ _ rfl rfl).elim
        | exact (h₃ _ _ rfl rfl).elim
        | exact (h₄ _ _ rfl rfl).elim
        | exact (h₅ _ _ rfl rfl).elim
        | exact (h₆ _ _ rfl rfl).elim
        | simp [Json.beq]
  · simp [Json.beqList]
  · intro x xs y ys ih₁ ih₂; simp [Json.beqList, ih₁, ih₂]
  · intro t x h₁ h₂
    cases t <;> cases x <;>
      first
        | exact (h₁ rfl rfl).elim
        | exact (h₂ _ _ _ _ rfl rfl).elim
        | simp [Json.beqList]
  · simp [Json.beqFields]
  · intro k₁ v₁ xs k₂ v₂ ys ih₁ ih₂
    simp [Json.beqFields, ih₁, ih₂, and_assoc]
  · intro t x h₁ h₂
    cases t <;> cases x <;>
      first
        | exact (h₁ rfl rfl).elim
        | exact (h₂ _ _ _ _ _ _ rfl rfl).elim
        | simp [Json.beqFields]

instance : DecidableEq Json := fun a b => decidable_of_iff _ (Json.beq_iff_eq a b)

/-- JavaScript member access `o[k]` on a parsed JSON value: `none` models
`undefined`.  For duplicate keys `JSON.parse` keeps the last one. -/
def Json.getField : Json → String → Option Json
  | .obj fields, k => fields.foldl (fun acc p => if p.1 = k then some p.2 else acc) none
  | _, _ => none

/-- JavaScript truthiness of a value that is either absent (`undefined`,
modelled `none`) or a JSON value. -/
def jsTruthy : Option Json → Bool
  | none => false
  | some .null => false
  | some (.bool b) => b
  | some (.num n) => n ≠ 0
  | some (.str s) => s ≠ ""
  | some (.arr _) => true
  | some (.obj _) => true

/-- JavaScript `a || b` where `a` may be an absent field: returns `a` when
truthy, otherwise `b`. -/
def jsOr (a : Option Json) (b : Json) : Json :=
  if jsTruthy a then a.getD b else b

/-- Split `hay` at the first occurrence of `needle`: returns the part
strictly before the occurrence and the part strictly after it. -/
def splitFirst (needle : List Char) : List Char → Option (List Char × List Char)
  | [] => if needle = [] then some ([], []) else none
  | c :: cs =>
    if needle.isPrefixOf (c :: cs) then some ([], (c :: cs).drop needle.length)
    else
      match splitFirst needle cs with
      | some (pre, post) => some (c :: pre, post)
      | none => none

/-- Substring containment (models `/lit/.test(s)` for a literal pattern). -/
def containsSub (hay needle : List Char) : Bool :=
  (splitFirst needle hay).isSome

/-- Case-insensitive substring containment for an ASCII-lowercase needle
(models `/lit/i.test(s)`). -/
def containsSubCI (hay needle : List Char) : Bool :=
  containsSub (hay.map Char.toLower) needle

/-- JavaScript `String.prototype.trim`. -/
def jsTrim (s : String) : String :=
  ⟨((s.data.dropWhile jsWs).reverse.dropWhile jsWs).reverse⟩

/-- ASCII decimal digit. -/
def isDigitChar (c : Char) : Bool :=
  '0' ≤ c && c ≤ '9'

/-- Value of a digit run (decimal, most significant first). -/
def digitsToNat (ds : List Char) : Nat :=
  ds.foldl (fun acc c => acc * 10 + (c.toNat - '0'.toNat)) 0

/-! ### A model of `JSON.parse`

`OpenAIProvider.parseReviewResponse` calls `JSON.parse` on the contents of a
fenced code block.  `jsonParse` below implements the JSON grammar: it
succeeds exactly on valid JSON texts (up to the modelling caveats in the
header comment) and is fuelled generously enough for any input it is
evaluated on here. -/

/-- Skip JSON insignificant whitespace. -/
def skipJsonWs : List Char → List Char
  | c :: cs => if c = ' ' || c = '\t' || c = '\n' || c = '\r' then skipJsonWs cs else c :: cs
  | [] => []

/-- Hexadecimal digit value. -/
def hexVal (c : Char) : Option Nat :=
  if '0' ≤ c ∧ c ≤ '9' then some (c.toNat - '0'.toNat)
  else if 'a' ≤ c ∧ c ≤ 'f' then some (c.toNat - 'a'.toNat + 10)
  else if 'A' ≤ c ∧ c ≤ 'F' then some (c.toNat - 'A'.toNat + 10)
  else none

/-- Decode the body of a JSON string literal (after the opening quote),
accumulating decoded characters in `acc`; returns the decoded string and
the input following the closing quote.  Raw control characters are
rejected, as `JSON.parse` rejects them. -/
def parseJsonStringBody (acc : List Char) : List Char → Option (String × List Char)
  | '"' :: cs => some (⟨acc.reverse⟩, cs)
  | '\\' :: 'u' :: h₁ :: h₂ :: h₃ :: h₄ :: cs =>
    match hexVal h₁, hexVal h₂, hexVal h₃, hexVal h₄ with
    | some a, some b, some c, some d =>
      parseJsonStringBody (Char.ofNat (((a * 16 + b) * 16 + c) * 16 + d) :: acc) cs
    | _, _, _, _ => none
  | '\\' :: e :: cs =>
    let dec : Option Char :=
      if e = '"' then some '"'
      else if e = '\\' then some '\\'
      else if e = '/' then some '/'
      else if e = 'b' then some '\x08'
      else if e = 'f' then some '\x0c'
      else if e = 'n' then some '\n'
      else if e = 'r' then some '\r'
      else if e = 't' then some '\t'
      else none
    match dec with
    | some c => parseJsonStringBody (c :: acc) cs
    | none => none
  | c :: cs => if c.toNat < 0x20 then none else parseJsonStringBody (c :: acc) cs
  | [] => none

/-- Take a maximal run of decimal digits. -/
def takeDigits (cs : List Char) : List Char × List Char :=
  (cs.takeWhile isDigitChar, cs.dropWhile isDigitChar)

/-- Parse a JSON number into an integer (sign and integer part without
leading zeros; a following fraction or exponent is outside the model and
rejected). -/
def parseJsonNumber (cs : List Char) : Option (ℤ × List Char) :=
  let (sign, cs₁) : ℤ × List Char :=
    match cs with
    | '-' :: rest => (-1, rest)
    | _ => (1, cs)
  let intPart : Option (Nat × List Char) :=
    match cs₁ with
    | '0' :: rest => if (rest.head?.map isDigitChar).getD false then none else some (0, rest)
    | c :: _ =>
      if isDigitChar c then
        let (ds, rest) := takeDigits cs₁
        some (digitsToNat ds, rest)
      else none
    | [] => none
  match intPart with
  | none => none
  | some (ip, cs₂) =>
    match cs₂ with
    | '.' :: _ => none
    | 'e' :: _ => none
    | 'E' :: _ => none
    | _ => some (sign * (ip : ℤ), cs₂)

mutual

/-- Parse one JSON value (fuelled recursive-descent). -/
def parseJsonValue : Nat → List Char → Option (Json × List Char)
  | 0, _ => none
  | fuel + 1, cs =>
    match skipJsonWs cs with
    | '{' :: rest =>
      match skipJsonWs rest with
      | '}' :: rest' => some (.obj [], rest')
      | rest' => parseJsonMembers fuel rest' []
    | '[' :: rest =>
      match skipJsonWs rest with
      | ']' :: rest' => some (.arr [], rest')
      | rest' => parseJsonElems fuel rest' []
    | '"' :: rest =>
      match parseJsonStringBody [] rest with
      | some (s, rest') => some (.str s, rest')
      | none => none
    | 't' :: 'r' :: 'u' :: 'e' :: rest => some (.bool true, rest)
    | 'f' :: 'a' :: 'l' :: 's' :: 'e' :: rest => some (.bool false, rest)
    | 'n' :: 'u' :: 'l' :: 'l' :: rest => some (.null, rest)
    | rest =>
      match parseJsonNumber rest with
      | some (q, rest') => some (.num q, rest')
      | none => none

/-- Parse the elements of a JSON array (after `[`, first element pending). -/
def parseJsonElems : Nat → List Char → List Json → Option (Json × List Char)
  | 0, _, _ => none
  | fuel + 1, cs, acc =>
    match parseJsonValue fuel cs with
    | none => none
    | some (v, rest) =>
      match skipJsonWs rest with
      | ',' :: rest' => parseJsonElems fuel rest' (v :: acc)
      | ']' :: rest' => some (.arr (v :: acc).reverse, rest')
      | _ => none

/-- Parse the members of a JSON object (after `{`, first member pending). -/
def parseJsonMembers : Nat → List Char → List (String × Json) → Option (Json × List Char)
  | 0, _, _ => none
  | fuel + 1, cs, acc =>
    match skipJsonWs cs with
    | '"' :: rest =>
      match parseJsonStringBody [] rest with
      | none => none
      | some (k, rest₁) =>
        match skipJsonWs rest₁ with
        | ':' :: rest₂ =>
          match parseJsonValue fuel rest₂ with
          | none => none
          | some (v, rest₃) =>
            match skipJsonWs rest₃ with
            | ',' :: rest₄ => parseJsonMembers fuel rest₄ ((k, v) :: acc)
            | '}' :: rest₄ => some (.obj ((k, v) :: acc).reverse, rest₄)
            | _ => none
        | _ => none
    | _ => none

end

/-- Model of `JSON.parse(s)`: `none` models a thrown `SyntaxError`. -/
def jsonParse (s : String) : Option Json :=
  match parseJsonValue (s.length * 4 + 16) s.data with
  | some (j, rest) => if skipJsonWs rest = [] then some j else none
  | none => none

/-! ### The data model of one review -/

/-- Structure `CodeDiff` from `src/core/reviewer.ts`. -/
structure CodeDiff where
  oldPath : String
  newPath : String
  oldContent : String
  newContent : String
  diffContent : String
  language : Option String := none
deriving Repr, DecidableEq

/-- One issue as constructed by the text-parsing strategies of
`parseReviewResponse` (a JavaScript object literal with these properties;
`none` models a property that is `undefined`). -/
structure Issue where
  line : Option Nat := none
  severity : String
  message : String
  suggestion : Option String := none
  code : Option String := none
deriving Repr, DecidableEq

/-- The runtime object pushed by the text-parsing strategies, as a `Json`
value.  A property holding `undefined` is access-equivalent to an absent
property, so `none` fields are dropped. -/
def Issue.toJson (i : Issue) : Json :=
  .obj ((i.line.map fun n => ("line", Json.num n)).toList ++
    [("severity", Json.str i.severity), ("message", Json.str i.message)] ++
    (i.suggestion.map fun s => ("suggestion", Json.str s)).toList ++
    (i.code.map fun c => ("code", Json.str c)).toList)

/-- Structure `ReviewResult` from `src/core/reviewer.ts`.  At runtime Strategy 1 of
the parser copies `parsed.issues` and `parsed.summary` straight out of the
model's JSON, so `issues` elements and `summary` are arbitrary JSON values
despite the narrower TypeScript annotation. -/
structure ReviewResult where
  file : String
  issues : List Json
  summary : Json
deriving Repr, DecidableEq

/-! ### Strategy 1: fenced JSON -/

/-- Models `content.match(/```json\n([\s\S]*?)\n```/)`: the leftmost
occurrence of the opening fence, then the lazily shortest body up to the
following closing fence; `none` when the regex does not match. -/
def extractFencedJsonBlock (content : List Char) : Option (List Char) :=
  match splitFirst "```json\n".data content with
  | none => none
  | some (_, rest) =>
    match splitFirst "\n```".data rest with
    | none => none
    | some (body, _) => some body

/-- Models `content.match(/```([\s\S]*?)```/)` (same shape, any fence). -/
def extractAnyFencedBlock (content : List Char) : Option (List Char) :=
  match splitFirst "```".data content with
  | none => none
  | some (_, rest) =>
    match splitFirst "```".data rest with
    | none => none
    | some (body, _) => some body

/-- The `jsonMatch` of `parseReviewResponse`:
`content.match(A) || content.match(B)` keeps the first regex's match object
whenever it exists, even when its captured group is empty. -/
def extractJsonBlock (content : List Char) : Option (List Char) :=
  (extractFencedJsonBlock content).orElse fun _ => extractAnyFencedBlock content

/-- Strategy 1 of `parseReviewResponse`: if a fenced block was captured and
non-empty (`jsonMatch && jsonMatch[1]`), parse it as JSON, and accept when
`parsed.issues && Array.isArray(parsed.issues)`; the issues array is used
as-is and the summary is `parsed.summary || ''`.  A `JSON.parse` error or a
member access on `null` is caught by the source's inner `try`, which makes
the strategy fall through (`none`). -/
def strategy1Raw (content : List Char) : Option (List Json × Json) :=
  match extractJsonBlock content with
  | none => none
  | some body =>
    if body = [] then none
    else
      match jsonParse ⟨body⟩ with
      | none => none
      | some j =>
        match j.getField "issues" with
        | some (.arr xs) => some (xs, jsOr (j.getField "summary") (.str ""))
        | _ => none

/-! ### Strategy 2: sectioned markdown

The section split is `content.split(/###\s+/)`.  Note that the separator
regex is unanchored: inside a level-4 header `#### x` it matches starting
at the second `#` (three hashes followed by whitespace), a fact that the
theorems below depend on. -/

theorem dropWhile_length_le (p : Char → Bool) (l : List Char) :
    (l.dropWhile p).length ≤ l.length := by
  induction l with
  | nil => simp [List.dropWhile]
  | cons c cs ih =>
    simp only [List.dropWhile]
    split
    · exact Nat.le_succ_of_le ih
    · simp

/-- The split on `/###\s+/` (greedy whitespace), accumulating the current
piece in reverse.  Fuelled (each step consumes at least one character) so
that the definition reduces definitionally. -/
def splitSectionsAux : Nat → List Char → List Char → List (List Char)
  | 0, cur, _ => [cur.reverse]
  | fuel + 1, cur, '#' :: '#' :: '#' :: c :: cs =>
    if jsWs c then cur.reverse :: splitSectionsAux fuel [] (cs.dropWhile jsWs)
    else splitSectionsAux fuel ('#' :: cur) ('#' :: '#' :: c :: cs)
  | fuel + 1, cur, c :: cs => splitSectionsAux fuel (c :: cur) cs
  | _ + 1, cur, [] => [cur.reverse]

/-- Models `content.split(/###\s+/)`. -/
def splitSections (content : List Char) : List (List Char) :=
  splitSectionsAux (content.length + 1) [] content

/-- Models `/🔴|🟠|🔵|严重问题|警告|建议|error|warning|info/i.test(section)`. -/
def sectionHasMarker (s : List Char) : Bool :=
  containsSub s "🔴".data || containsSub s "🟠".data || containsSub s "🔵".data ||
  containsSub s "严重问题".data || containsSub s "警告".data || containsSub s "建议".data ||
  containsSubCI s "error".data || containsSubCI s "warning".data || containsSubCI s "info".data

/-- The severity classification of a section (lines 567–574 of the
provider): `/🔴|严重问题|error/i` → error, else `/🟠|警告|warning/i` →
warning, else info. -/
def classifySeverity (s : List Char) : String :=
  if containsSub s "🔴".data || containsSub s "严重问题".data || containsSubCI s "error".data then
    "error"
  else if containsSub s "🟠".data || containsSub s "警告".data || containsSubCI s "warning".data then
    "warning"
  else "info"

/-- Lazy `(.+?)` (with `s` flag) running until the input is exhausted or a
`####` follows, taking at least one character: returns (group, rest). -/
def takeLazyUntilHashes (acc : List Char) : List Char → (List Char × List Char)
  | [] => (acc.reverse, [])
  | c :: cs =>
    if "####".data.isPrefixOf cs then ((c :: acc).reverse, cs)
    else takeLazyUntilHashes (c :: acc) cs

/-- Attempt the problem regex `/####\s+(.+?):(.+?)(?=####|$)/gs` at the head
of the input; on success returns the full match text and the rest of the
input after it.  The lazy first group runs to the first colon that still
leaves at least one character for the second group; when the only usable
colon directly follows the whitespace run, the greedy `\s+` gives one
character back (possible only when the run has length ≥ 2). -/
def tryProblemAt : List Char → Option (List Char × List Char)
  | '#' :: '#' :: '#' :: '#' :: rest =>
    let w := rest.takeWhile jsWs
    let afterWs := rest.dropWhile jsWs
    if w = [] then none
    else
      let colonSplit : Option (List Char × List Char) :=
        match afterWs with
        | a :: arest =>
          match splitFirst [':'] arest with
          | some (pre, post) => if post = [] then none else some (a :: pre, post)
          | none => none
        | [] => none
      let colonSplit : Option (List Char × List Char) :=
        match colonSplit with
        | some r => some r
        | none =>
          match afterWs with
          | ':' :: post => if w.length ≥ 2 ∧ post ≠ [] then some ([], post) else none
          | _ => none
      match colonSplit with
      | none => none
      | some (g₁, post) =>
        match post with
        | [] => none
        | c :: cs =>
          let (g₂, rest') := takeLazyUntilHashes [] (c :: cs)
          some ("####".data ++ w ++ g₁ ++ [':'] ++ g₂, rest')
  | _ => none

/-- All matches of the (global) problem regex in a section, in order
(models `section.match(/####\s+(.+?):(.+?)(?=####|$)/gs)`). -/
def problemScan : Nat → List Char → List (List Char)
  | 0, _ => []
  | _ + 1, [] => []
  | fuel + 1, c :: rest =>
    match tryProblemAt (c :: rest) with
    | some (m, rest') => m :: problemScan fuel rest'
    | none => problemScan fuel rest

/-- Trim a character list the way `String.prototype.trim` does. -/
def jsTrimL (cs : List Char) : String :=
  ⟨((cs.dropWhile jsWs).reverse.dropWhile jsWs).reverse⟩

/-- Models `problemMatch.match(/####\s+第(\d+)行:/)` at one position. -/
def lineMatchAt : List Char → Option Nat
  | '#' :: '#' :: '#' :: '#' :: rest =>
    let w := rest.takeWhile jsWs
    let r₁ := rest.dropWhile jsWs
    if w = [] then none
    else
      match r₁ with
      | '第' :: r₂ =>
        let ds := r₂.takeWhile isDigitChar
        let r₃ := r₂.dropWhile isDigitChar
        match r₃ with
        | '行' :: ':' :: _ => if ds = [] then none else some (digitsToNat ds)
        | _ => none
      | _ => none
  | _ => none

/-- Leftmost match of a positional matcher (a regex engine's outer loop:
try each start position from the left). -/
def scanFirst (f : List Char → Option α) : List Char → Option α
  | [] => f []
  | c :: cs => (f (c :: cs)).orElse fun _ => scanFirst f cs

/-- Models `\s*([^\n]+)` after a literal, with the greedy backtracking of
`\s*` (which can hand non-newline whitespace back to the group when
nothing else is available): returns (group, rest after the match). -/
def wsGroupMsg (r : List Char) : Option (List Char × List Char) :=
  let rr := r.dropWhile jsWs
  if rr ≠ [] then some (rr.takeWhile (· ≠ '\n'), rr.dropWhile (· ≠ '\n'))
  else
    match r.reverse.dropWhile (· = '\n') with
    | [] => none
    | c :: _ => some ([c], (r.reverse.takeWhile (· = '\n')).reverse)

/-- Models `problemMatch.match(/####\s+(?:第\d+行|整体):\s*(.+)(?:\n|$)/)`
at one position (no `s` flag: `.` stops at newlines; the final
`(?:\n|$)` is always satisfied at the end of a maximal non-newline run). -/
def messageMatchAt : List Char → Option (List Char)
  | '#' :: '#' :: '#' :: '#' :: rest =>
    let w := rest.takeWhile jsWs
    let r₁ := rest.dropWhile jsWs
    if w = [] then none
    else
      let afterLabel : Option (List Char) :=
        match r₁ with
        | '第' :: r₂ =>
          let ds := r₂.takeWhile isDigitChar
          let r₃ := r₂.dropWhile isDigitChar
          match r₃ with
          | '行' :: ':' :: r₄ => if ds = [] then none else some r₄
          | _ => none
        | '整' :: '体' :: ':' :: r₄ => some r₄
        | _ => none
      match afterLabel with
      | none => none
      | some r₄ => (wsGroupMsg r₄).map Prod.fst
  | _ => none

/-- Message of one problem block: the matched group trimmed, or the fixed
fallback `'未知问题'`. -/
def messageOf (m : List Char) : String :=
  match scanFirst messageMatchAt m with
  | some g => jsTrimL g
  | none => "未知问题"

/-- Models `problemMatch.match(/\*\*💡 改进建议:\*\*\n([\s\S]*?)(?=\*\*|$)/)`:
after the literal label, the lazy group runs to the first `**` or to the
end. -/
def suggestionOf (m : List Char) : Option String :=
  match splitFirst "**💡 改进建议:**\n".data m with
  | none => none
  | some (_, rest) =>
    match splitFirst "**".data rest with
    | some (body, _) => some (jsTrimL body)
    | none => some (jsTrimL rest)

/-- Models `problemMatch.match(/```\n([\s\S]*?)\n```/)` (untrimmed). -/
def codeOf (m : List Char) : Option String :=
  match splitFirst "```\n".data m with
  | none => none
  | some (_, rest) =>
    match splitFirst "\n```".data rest with
    | some (body, _) => some ⟨body⟩
    | none => none

/-- Strategy 2 of `parseReviewResponse`: split into sections, skip sections
without a severity marker, and turn each problem block of a marked section
into an issue with the section's severity. -/
def strategy2Issues (content : List Char) : List Issue :=
  (((splitSections content).filter (· ≠ [])).map fun sec =>
    if sectionHasMarker sec then
      (problemScan (sec.length + 1) sec).map fun m =>
        { line := scanFirst lineMatchAt m
          severity := classifySeverity sec
          message := messageOf m
          suggestion := suggestionOf m
          code := codeOf m }
    else []).flatten

/-! ### Strategy 3: loose line-based fallback -/

/-- The bracketed severity alternative `\[(error|warning|info)\]` at the
head of the input. -/
def bracketSev (r : List Char) : Option (String × List Char) :=
  if "[error]".data.isPrefixOf r then some ("error", r.drop 7)
  else if "[warning]".data.isPrefixOf r then some ("warning", r.drop 9)
  else if "[info]".data.isPrefixOf r then some ("info", r.drop 6)
  else none

/-- Models `[^\n]+` at the head of the input (greedy, at least one character). -/
def plainMsgAt : List Char → Option (List Char × List Char)
  | [] => none
  | c :: cs =>
    if c = '\n' then none
    else some ((c :: cs).takeWhile (· ≠ '\n'), (c :: cs).dropWhile (· ≠ '\n'))

/-- The tail `\s*(?:\[(error|warning|info)\]\s*)?([^\n]+)` of the Strategy 3
regex after the colon, with the greedy `\s*` backtracking from `k`
characters consumed downwards; at each position the optional bracket group
is preferred over the bare message. -/
def strategy3TailAt (rest : List Char) (k : Nat) : Option (Option String × List Char × List Char) :=
  match bracketSev (rest.drop k) with
  | some (sev, r') =>
    match wsGroupMsg r' with
    | some (msg, rest') => some (some sev, msg, rest')
    | none => (plainMsgAt (rest.drop k)).map fun p => (none, p.1, p.2)
  | none => (plainMsgAt (rest.drop k)).map fun p => (none, p.1, p.2)

/-- Backtracking loop over the amount of whitespace consumed by the outer
greedy `\s*`, from `k` characters down to zero. -/
def strategy3TailGo (rest : List Char) : Nat → Option (Option String × List Char × List Char)
  | 0 => strategy3TailAt rest 0
  | k + 1 => (strategy3TailAt rest (k + 1)).orElse fun _ => strategy3TailGo rest k

/-- The `(\d+)?\s*[:：]` front of the Strategy 3 regex at the head of the
input: returns the optional line number and the input after the colon, or
`none` when no match starts here.  When the optional leading digits are
present they must be followed (after optional whitespace) by a colon, or
the position fails — shrinking the greedy `\d+` can never reach a
colon. -/
def strategy3Front : List Char → Option (Option Nat × List Char)
  | [] => none
  | c :: cs =>
    if isDigitChar c then
      match ((c :: cs).dropWhile isDigitChar).dropWhile jsWs with
      | ':' :: rest => some (some (digitsToNat ((c :: cs).takeWhile isDigitChar)), rest)
      | '：' :: rest => some (some (digitsToNat ((c :: cs).takeWhile isDigitChar)), rest)
      | _ => none
    else
      match (c :: cs).dropWhile jsWs with
      | ':' :: rest => some (none, rest)
      | '：' :: rest => some (none, rest)
      | _ => none

/-- Attempt the Strategy 3 regex
`/(\d+)?\s*[:：]\s*(?:\[(error|warning|info)\]\s*)?([^\n]+)/` at the head of
the input; returns the issue fields and the rest of the input after the
match. -/
def strategy3TryAt (cs : List Char) : Option (Option Nat × Option String × List Char × List Char) :=
  match strategy3Front cs with
  | none => none
  | some (line, afterColon) =>
    match strategy3TailGo afterColon (afterColon.takeWhile jsWs).length with
    | some (sev, msg, rest') => some (line, sev, msg, rest')
    | none => none

/-- The global `exec` loop of Strategy 3: successive non-overlapping
leftmost matches over the whole response text. -/
def strategy3Scan : Nat → List Char → List Issue
  | 0, _ => []
  | _ + 1, [] => []
  | fuel + 1, c :: rest =>
    match strategy3TryAt (c :: rest) with
    | some (line, sev, msg, rest') =>
      { line := line, severity := sev.getD "info", message := jsTrimL msg } ::
        strategy3Scan fuel rest'
    | none => strategy3Scan fuel rest

/-- Strategy 3 of `parseReviewResponse` (used only when Strategy 2 produced
no issues). -/
def strategy3Issues (content : List Char) : List Issue :=
  strategy3Scan (content.length + 1) content

/-! ### Summary extraction (`OpenAIProvider.extractSummary`) -/

/-- The `\s*\n([^#]+)` tail of the overall-assessment regex: greedy `\s*`
backtracks from the whole whitespace run down until the consumed part ends
just before a newline that is followed by at least one non-`#` character. -/
def overallTailGo (r : List Char) : Nat → Option (List Char)
  | 0 => none
  | j + 1 =>
    let attempt : Option (List Char) :=
      if r[j]? = some '\n' then
        match r.drop (j + 1) with
        | c :: cs => if c = '#' then none else some ((c :: cs).takeWhile (· ≠ '#'))
        | [] => none
      else none
    attempt.orElse fun _ => overallTailGo r j

/-- Models `content.match(/##\s*📝\s*总体评价\s*\n([^#]+)/)` at one
position. -/
def tryOverallAt : List Char → Option (List Char)
  | '#' :: '#' :: rest =>
    match rest.dropWhile jsWs with
    | '📝' :: r₂ =>
      let r₃ := r₂.dropWhile jsWs
      if "总体评价".data.isPrefixOf r₃ then
        let r₄ := r₃.drop 4
        overallTailGo r₄ (r₄.takeWhile jsWs).length
      else none
    | _ => none
  | _ => none

/-- The `\s*([^\n]+)(?:\n\n|$)` tail of the labelled-summary regex, with the
greedy `\s*` backtracking from `k` characters consumed downwards; the
candidate group is the maximal non-newline run and the match succeeds when
it is followed by a blank line or the end of input. -/
def ruleBTailAt (r : List Char) (k : Nat) : Option (List Char) :=
  match r.drop k with
  | c :: cs =>
    if c = '\n' then none
    else
      let g := (c :: cs).takeWhile (· ≠ '\n')
      let a := (c :: cs).dropWhile (· ≠ '\n')
      if a = [] ∨ "\n\n".data.isPrefixOf a then some g else none
  | [] => none

/-- Backtracking loop for the labelled-summary tail, over the amount of
whitespace consumed by the greedy `\s*`. -/
def ruleBTailGo (r : List Char) : Nat → Option (List Char)
  | 0 => ruleBTailAt r 0
  | k + 1 => (ruleBTailAt r (k + 1)).orElse fun _ => ruleBTailGo r k

/-- One label alternative of
`/(?:总结|总体评价|总体评估|总览|Summary)[:：]\s*([^\n]+)(?:\n\n|$)/i`, in the
source's alternation order, at the head of the input. -/
def labelAt (cs : List Char) : Option (List Char) :=
  if "总结".data.isPrefixOf cs then some (cs.drop 2)
  else if "总体评价".data.isPrefixOf cs then some (cs.drop 4)
  else if "总体评估".data.isPrefixOf cs then some (cs.drop 4)
  else if "总览".data.isPrefixOf cs then some (cs.drop 2)
  else if "summary".data.isPrefixOf ((cs.take 7).map Char.toLower) then some (cs.drop 7)
  else none

/-- Models the labelled-summary regex at one position. -/
def tryLabelAt (cs : List Char) : Option (List Char) :=
  match labelAt cs with
  | none => none
  | some r =>
    match r with
    | ':' :: rest => ruleBTailGo rest (rest.takeWhile jsWs).length
    | '：' :: rest => ruleBTailGo rest (rest.takeWhile jsWs).length
    | _ => none

/-- Models `content.split('\n\n')` (literal separator, non-overlapping,
left to right). -/
def splitParagraphsAux (cur : List Char) : List Char → List (List Char)
  | '\n' :: '\n' :: cs => cur.reverse :: splitParagraphsAux [] cs
  | c :: cs => splitParagraphsAux (c :: cur) cs
  | [] => [cur.reverse]

/-- Models `content.split('\n\n')`. -/
def splitParagraphs (content : List Char) : List (List Char) :=
  splitParagraphsAux [] content

/-- Function `OpenAIProvider.extractSummary`: overall-assessment header, then a
labelled summary line, then the first paragraph if shorter than 200
characters, then the last paragraph.  (The 200 bound counts characters;
JavaScript counts UTF-16 units, which differs only on astral characters.) -/
def extractSummary (content : List Char) : String :=
  match scanFirst tryOverallAt content with
  | some g => jsTrimL g
  | none =>
    match scanFirst tryLabelAt content with
    | some g => jsTrimL g
    | none =>
      let paragraphs := splitParagraphs content
      let firstPar := paragraphs.headD []
      if firstPar ≠ [] ∧ firstPar.length < 200 then jsTrimL firstPar
      else jsTrimL (paragraphs.getLastD [])

/-! ### `OpenAIProvider.parseReviewResponse` -/

/-- The degenerate Strategy 4 issue (lines 632–638 of the provider). -/
def degenerateIssue (content : String) : Issue :=
  { severity := "info", message := "审查反馈", suggestion := some (jsTrim content) }

/-- Function `OpenAIProvider.parseReviewResponse(content, filePath)`.  Every
JavaScript operation that can throw inside the outer `try` sits inside the
inner `try` around `JSON.parse`, whose `catch` falls through to the text
strategies, so the function is total and the outer `catch` (which would
return a single error-severity issue) is unreachable. -/
def parseReviewResponse (content filePath : String) : ReviewResult :=
  match strategy1Raw content.data with
  | some (xs, summ) => ⟨filePath, xs, summ⟩
  | none =>
    let summary := extractSummary content.data
    let issues₂ := strategy2Issues content.data
    let issues₃ := if issues₂ = [] then strategy3Issues content.data else issues₂
    let issues₄ :=
      if issues₃ = [] ∧ jsTrim content ≠ "" then [degenerateIssue content] else issues₃
    ⟨filePath, issues₄.map Issue.toJson, .str summary⟩

/-! ### The diff filter (`CodeReviewer.filterDiffs` / `matchPatterns`) -/

/-- ECMAScript line terminators: in a regular expression without the `s`
flag, `.` (and hence the `.*` compiled from `*`) matches any character
except these. -/
def lineTerminator (c : Char) : Bool :=
  c = '\n' || c = '\r' || c = '\u2028' || c = '\u2029'

/-- Tokens of the regular expression that `matchPatterns` builds from a
pattern: each `*` becomes `.*` and every other character (including the
escaped `.`) is a literal. -/
inductive RToken where
  | lit (c : Char) : RToken
  | star : RToken
deriving Repr, DecidableEq

/-- The token list of `'^' + pattern.replace(/\./g, '\\.').replace(/\*/g, '.*') + '$'`. -/
def patternTokens (pattern : String) : List RToken :=
  pattern.data.map fun c => if c = '*' then .star else .lit c

/-- Executable matcher for the anchored regex built from a pattern: a
literal token consumes exactly its character and a `*` token (`.*`, with
no `s` flag on the source's `RegExp`) consumes any prefix free of line
terminators. -/
def globMatch : List RToken → List Char → Bool
  | [], cs => cs.isEmpty
  | .lit _ :: _, [] => false
  | .lit c :: ts, d :: ds => c = d && globMatch ts ds
  | .star :: ts, cs =>
    (List.range ((cs.takeWhile fun c => !lineTerminator c).length + 1)).any fun k =>
      globMatch ts (cs.drop k)

/-- Denotational semantics of that anchored regular expression: a literal
token matches exactly its character, a `*` token (compiled to `.*`, where
`.` excludes line terminators because the source's `RegExp` has no `s`
flag) matches any, possibly empty, run of non-line-terminator characters,
and the whole token list must cover the whole string (the `^`/`$`
anchors). -/
inductive RMatches : List RToken → List Char → Prop where
  | nil : RMatches [] []
  | lit {c : Char} {ts : List RToken} {cs : List Char} :
      RMatches ts cs → RMatches (.lit c :: ts) (c :: cs)
  | starEmpty {ts : List RToken} {cs : List Char} :
      RMatches ts cs → RMatches (.star :: ts) cs
  | starCons {ts : List RToken} {c : Char} {cs : List Char} :
      lineTerminator c = false → RMatches (.star :: ts) cs →
      RMatches (.star :: ts) (c :: cs)

/-- Characters that stand for themselves inside a JavaScript regular
expression (no metacharacter meaning).  `matchPatterns` escapes `.` and
expands `*`; any other metacharacter would be passed through to the regex
engine unescaped, so the glob model is stated for patterns avoiding
them. -/
def regexPlainChar (c : Char) : Bool :=
  !(c ∈ ['\\', '^', '$', '.', '*', '+', '?', '(', ')', '[', ']', '\x7b', '\x7d', '|'])

/-- One pattern test of `CodeReviewer.matchPatterns`: a pattern containing
`*` is compiled to the anchored regular expression
`new RegExp('^' + pattern.replace(/\./g, '\\.').replace(/\*/g, '.*') + '$')`
and tested against the path (`globMatch` is that regex's matcher for
patterns whose other characters are not regex metacharacters — the
source-escaped `.` is covered); a pattern without `*` requires exact
string equality. -/
def matchesPattern (pattern filePath : String) : Bool :=
  if pattern.data.contains '*' then globMatch (patternTokens pattern) filePath.data
  else filePath = pattern

/-- `CodeReviewer.matchPatterns(filePath, patterns)`. -/
def matchPatterns (filePath : String) (patterns : List String) : Bool :=
  patterns.any fun pattern => matchesPattern pattern filePath

/-- The four optional pattern lists of `AiReviewerConfig.review` consumed
by the filter (`none` models an absent field). -/
structure ReviewConfig where
  ignoreFiles : Option (List String) := none
  ignorePaths : Option (List String) := none
  includePatterns : Option (List String) := none
  excludePatterns : Option (List String) := none
deriving Repr, DecidableEq

/-- The per-file predicate of `CodeReviewer.filterDiffs` (the body of the
`diffs.filter` arrow function, with its early `return false` cascade). -/
def filterKeep (cfg : ReviewConfig) (filePath : String) : Bool :=
  if (match cfg.ignoreFiles with
      | some ps => matchPatterns filePath ps
      | none => false) then false
  else if (match cfg.ignorePaths with
      | some ps => ps.any fun p => p.data.isPrefixOf filePath.data
      | none => false) then false
  else if (match cfg.includePatterns with
      | some ps => decide (ps.length > 0) && !matchPatterns filePath ps
      | none => false) then false
  else if (match cfg.excludePatterns with
      | some ps => matchPatterns filePath ps
      | none => false) then false
  else true

/-- `CodeReviewer.filterDiffs(diffs)`. -/
def filterDiffs (cfg : ReviewConfig) (diffs : List CodeDiff) : List CodeDiff :=
  diffs.filter fun diff => filterKeep cfg diff.newPath

/-- The decision procedure exactly as the claim states it, in its stated
priority: an ignore-file pattern match excludes; else an ignore-path
literal prefix excludes; else a set and non-empty include list excludes
paths matching none of it; else an exclude-pattern match excludes; else
the path is included. -/
def claimFilterDecision (cfg : ReviewConfig) (path : String) : Bool :=
  if cfg.ignoreFiles.isSome && matchPatterns path (cfg.ignoreFiles.getD []) then false
  else if cfg.ignorePaths.isSome &&
      (cfg.ignorePaths.getD []).any (fun p => p.data.isPrefixOf path.data) then false
  else if cfg.includePatterns.isSome && !(cfg.includePatterns.getD []).isEmpty &&
      !matchPatterns path (cfg.includePatterns.getD []) then false
  else if cfg.excludePatterns.isSome && matchPatterns path (cfg.excludePatterns.getD []) then
    false
  else true

/-! ### JavaScript numbers (for `buildSummaryPrompt`'s percentages) -/

/-- The fragment of IEEE-754 double semantics that the percentage
computation exercises: `NaN`, the infinities, and finite values (modelled
as exact rationals; the only operations used are division of small
naturals, multiplication by 100 and `Math.round`, where the exact-rational
model can differ from doubles only by one ulp of rounding on huge or
pathological counts, not in the zero-total case the claims are about). -/
inductive JsNum where
  | nan : JsNum
  | posInf : JsNum
  | negInf : JsNum
  | num (q : ℚ) : JsNum
deriving Repr, DecidableEq

/-- JavaScript division of two non-negative integer counts: `0 / 0` is
`NaN` and `x / 0` is `Infinity` for `x > 0`. -/
def jsDivNat (a b : Nat) : JsNum :=
  if b = 0 then (if a = 0 then .nan else .posInf) else .num ((a : ℚ) / (b : ℚ))

/-- Multiplication by the literal `100`. -/
def JsNum.mul100 : JsNum → JsNum
  | .nan => .nan
  | .posInf => .posInf
  | .negInf => .negInf
  | .num q => .num (q * 100)

/-- JavaScript `x || 0`: `NaN` and `0` (and `-0`) are falsy, everything
else is kept. -/
def JsNum.orZero : JsNum → JsNum
  | .nan => .num 0
  | .num q => if q = 0 then .num 0 else .num q
  | x => x

/-- `Math.round`: half-up toward positive infinity on finite values. -/
def jsMathRound : JsNum → JsNum
  | .num q => .num ((⌊q + 1/2⌋ : ℤ) : ℚ)
  | x => x

/-- Rendering of a number by a template literal (integral values print
with no decimal point; every value rendered here is integral). -/
def JsNum.render : JsNum → String
  | .nan => "NaN"
  | .posInf => "Infinity"
  | .negInf => "-Infinity"
  | .num q => if q.den = 1 then toString q.num else toString q

/-- One percentage of `severityDistribution`:
`Math.round(count / issuesCount * 100 || 0)`. -/
def severityPercent (count total : Nat) : JsNum :=
  jsMathRound ((jsDivNat count total).mul100.orZero)

/-! ### Rendering of runtime values interpolated into prompts -/

/-- String conversion of a JSON value as performed by a template literal
(`String(v)`): strings unchanged, numbers via their decimal rendering,
arrays joined by commas with `null` rendered empty, objects as
`[object Object]`.  Fuelled by term size, which bounds the recursion
depth. -/
def jsToStringFuel : Nat → Json → String
  | 0, _ => ""
  | _ + 1, .null => "null"
  | _ + 1, .bool b => cond b "true" "false"
  | _ + 1, .num n => toString n
  | _ + 1, .str s => s
  | fuel + 1, .arr xs =>
    String.intercalate "," (xs.map fun j =>
      match j with
      | .null => ""
      | j => jsToStringFuel fuel j)
  | _ + 1, .obj _ => "[object Object]"

mutual

/-- Executable size of a JSON value (the auto-generated `sizeOf` has no
executable code for this nested inductive), used only to fuel
`jsToStringJson`. -/
def Json.size : Json → Nat
  | .arr xs => 1 + Json.sizeList xs
  | .obj fs => 1 + Json.sizeFields fs
  | _ => 1

/-- Size of a list of JSON values. -/
def Json.sizeList : List Json → Nat
  | [] => 0
  | x :: xs => 1 + Json.size x + Json.sizeList xs

/-- Size of a JSON field list. -/
def Json.sizeFields : List (String × Json) → Nat
  | [] => 0
  | (_, v) :: xs => 1 + Json.size v + Json.sizeFields xs

end

/-- String conversion of a JSON value (total wrapper). -/
def jsToStringJson (j : Json) : String :=
  jsToStringFuel (Json.size j + 1) j

/-- Template-literal interpolation of a possibly-absent value
(`${undefined}` renders as `"undefined"`). -/
def jsDisplay : Option Json → String
  | none => "undefined"
  | some j => jsToStringJson j

/-- Models `issue.severity.toUpperCase()`.  On an issue whose severity is
not a string the source would throw a `TypeError`; that can only happen
for issues passed through Strategy 1 and never on the paths the theorems
below exercise, so the model renders such values as `"undefined"`. -/
def severityUpper (issue : Json) : String :=
  match issue.getField "severity" with
  | some (.str s) => s.toUpper
  | _ => "undefined"

/-! ### The prompt builders -/

/-- The optional prompt-template overrides (`config.review.prompts`). -/
structure PromptsConfig where
  system : Option String := none
  review : Option String := none
  summary : Option String := none
deriving Repr, DecidableEq

/-- Expansion of the replacement string by `String.prototype.replace`
(`GetSubstitution`): `$$` is a literal dollar, `$&` the matched text, a
dollar before a backquote the text before the match, `$'` the text after
it; any other `$` is literal (the pattern has no capture groups). -/
def getSubstitution (matched pre post : List Char) : List Char → List Char
  | [] => []
  | [c] => [c]
  | c :: c₂ :: rest =>
    if c = '$' then
      if c₂ = '$' then '$' :: getSubstitution matched pre post rest
      else if c₂ = '&' then matched ++ getSubstitution matched pre post rest
      else if c₂.toNat = 96 then pre ++ getSubstitution matched pre post rest
      else if c₂ = '\'' then post ++ getSubstitution matched pre post rest
      else '$' :: getSubstitution matched pre post (c₂ :: rest)
    else c :: getSubstitution matched pre post (c₂ :: rest)

/-- JavaScript `s.replace(pat, repl)` with string arguments: replaces only
the first occurrence, expanding `$`-escapes in the replacement; returns
`s` unchanged when `pat` does not occur. -/
def jsReplace (s pat repl : String) : String :=
  match splitFirst pat.data s.data with
  | none => s
  | some (pre, post) => ⟨pre ++ getSubstitution pat.data pre post repl.data ++ post⟩

/-- Plain first-occurrence replacement as the specification describes it:
the text before the first occurrence, then the replacement value
verbatim, then the text after the occurrence. -/
def replaceFirstPlain (s pat repl : String) : String :=
  match splitFirst pat.data s.data with
  | none => s
  | some (pre, post) => ⟨pre ++ repl.data ++ post⟩

/-- `OpenAIProvider.buildReviewPrompt(diff, language)`: with a truthy
custom template, three successive `replace` calls for `{{language}}`,
`{{filePath}}` and `{{diffContent}}`; otherwise the built-in template. -/
def buildReviewPrompt (prompts : PromptsConfig) (diff : CodeDiff) (language : String) : String :=
  let customPrompt := prompts.review.getD ""
  if customPrompt ≠ "" then
    jsReplace (jsReplace (jsReplace customPrompt "\x7b\x7blanguage\x7d\x7d" language)
      "\x7b\x7bfilePath\x7d\x7d" diff.newPath) "\x7b\x7bdiffContent\x7d\x7d" diff.diffContent
  else
    "请以专业代码审查者的身份审查以下" ++ language ++ "代码差异。\n\n文件路径: " ++
      diff.newPath ++ "\n\n代码差异:\n```diff\n" ++ diff.diffContent ++
      "\n```\n\n请按照以下结构提供评论：\n\n1. **总体评价**: 简要总结代码质量，包括积极方面和需要改进的地方\n" ++
      "2. **关键发现**: 按优先级列出最重要的问题\n3. **详细分析**: 对每个问题进行详细说明，每个问题包含：\n" ++
      "   - 严重性: 低(info) | 中(warning) | 高(error)\n   - 问题位置: 具体到行号\n" ++
      "   - 问题描述: 清晰说明问题所在\n   - 改进建议: 提供具体的改进方法，可能包含代码示例\n" ++
      "   - 解释理由: 简要解释为什么这是一个问题或为什么建议的改进是有益的\n" ++
      "4. **最佳实践**: 指出代码中遵循或违反的最佳实践\n5. **学习资源**: 酌情提供相关文档或学习资源链接\n\n" ++
      "请以JSON格式返回响应，包含以下字段:\n1. file: 文件路径\n2. summary: 总体评价摘要\n" ++
      "3. issues: 问题数组，每个问题包含:\n   - severity: 'info' | 'warning' | 'error'\n" ++
      "   - line: 行号(可选)\n   - message: 问题描述\n   - suggestion: 改进建议(可选)\n" ++
      "   - code: 示例代码(可选)\n\n确保分析全面且具有建设性，重点关注可行的改进而不仅仅是指出问题。"

/-- The total issue count of `buildSummaryPrompt`
(`results.reduce((sum, result) => sum + result.issues.length, 0)`). -/
def totalIssues (results : List ReviewResult) : Nat :=
  results.foldl (fun sum result => sum + result.issues.length) 0

/-- Issue filter by severity string (`issue.severity === sev`). -/
def issuesWithSeverity (sev : String) (issues : List Json) : List Json :=
  issues.filter fun i => i.getField "severity" == some (Json.str sev)

/-- The per-file detailed report block of `buildSummaryPrompt`. -/
def detailedResultBlock (result : ReviewResult) : String :=
  let errorCount := (issuesWithSeverity "error" result.issues).length
  let warningCount := (issuesWithSeverity "warning" result.issues).length
  let infoCount := (issuesWithSeverity "info" result.issues).length
  let severitySummary :=
    "严重问题: " ++ toString errorCount ++ "个, 警告: " ++ toString warningCount ++
      "个, 信息: " ++ toString infoCount ++ "个"
  "## 文件: " ++ result.file ++ "\n" ++ severitySummary ++ "\n" ++
    (if jsTruthy (some result.summary) then
      "\n文件摘要: " ++ jsToStringJson result.summary ++ "\n"
    else "") ++ "\n\n详细问题:\n" ++
    String.intercalate "\n" (result.issues.map fun issue =>
      let lineInfo :=
        if jsTruthy (issue.getField "line") then
          "第" ++ jsDisplay (issue.getField "line") ++ "行"
        else "通用"
      let suggestion :=
        if jsTruthy (issue.getField "suggestion") then
          "\n建议: " ++ jsDisplay (issue.getField "suggestion")
        else ""
      "- [" ++ severityUpper issue ++ "] " ++ lineInfo ++ ": " ++
        jsDisplay (issue.getField "message") ++ suggestion) ++ "\n"

/-- The `severityDistribution` string of `buildSummaryPrompt` (lines
483–490 of the provider): per-severity counts over the flattened issue
list and their percentage of the total issue count, via
`Math.round(count / issuesCount * 100 || 0)`. -/
def severityDistributionText (results : List ReviewResult) : String :=
  let issuesCount := totalIssues results
  let allIssues := (results.map fun r => r.issues).flatten
  let errorCount := (issuesWithSeverity "error" allIssues).length
  let warningCount := (issuesWithSeverity "warning" allIssues).length
  let infoCount := (issuesWithSeverity "info" allIssues).length
  "严重问题: " ++ toString errorCount ++ "个 (" ++
      (severityPercent errorCount issuesCount).render ++ "%)\n警告: " ++
      toString warningCount ++ "个 (" ++
      (severityPercent warningCount issuesCount).render ++ "%)\n信息: " ++
      toString infoCount ++ "个 (" ++
      (severityPercent infoCount issuesCount).render ++ "%)"

/-- `OpenAIProvider.buildSummaryPrompt(results)`. -/
def buildSummaryPrompt (prompts : PromptsConfig) (results : List ReviewResult) : String :=
  let filesCount := results.length
  let issuesCount := totalIssues results
  let detailedResults := String.intercalate "\n\n" (results.map detailedResultBlock)
  let severityDistribution := severityDistributionText results
  let customPrompt := prompts.summary.getD ""
  if customPrompt ≠ "" then
    jsReplace (jsReplace (jsReplace (jsReplace customPrompt
      "\x7b\x7bfilesCount\x7d\x7d" (toString filesCount))
      "\x7b\x7bissuesCount\x7d\x7d" (toString issuesCount))
      "\x7b\x7bresultsSummary\x7d\x7d" detailedResults)
      "\x7b\x7bseverityDistribution\x7d\x7d" severityDistribution
  else
    "请对以下代码审查结果进行全面总结，并提供详细的整体改进建议:\n\n审查了 " ++
      toString filesCount ++ " 个文件，共发现 " ++ toString issuesCount ++
      " 个问题。\n\n问题严重程度分布:\n" ++ severityDistribution ++
      "\n\n详细审查结果:\n" ++ detailedResults ++
      "\n\n请基于以上结果提供:\n1. 代码库整体质量评估\n2. 按文件列出关键问题及建议\n" ++
      "3. 最常见的问题类型及改进方向\n4. 优先修复的关键问题\n5. 整体代码质量改进建议"

/-! ### Single-file targeted review (`CodeReviewer.reviewSingleFile`) -/

/-- The severity emoji lookup of `formatIssueComment`
(`{error: '❌', warning: '⚠️', info: 'ℹ️'}[issue.severity]`); any other
severity value yields `undefined`, which the template renders as
`"undefined"`. -/
def severityEmoji (issue : Json) : String :=
  match issue.getField "severity" with
  | some (.str "error") => "❌"
  | some (.str "warning") => "⚠️"
  | some (.str "info") => "ℹ️"
  | _ => "undefined"

/-- `CodeReviewer.formatIssueComment(issue)`. -/
def formatIssueComment (issue : Json) : String :=
  severityEmoji issue ++ " **" ++ jsDisplay (issue.getField "message") ++ "**\n\n" ++
    (if jsTruthy (issue.getField "suggestion") then
      "建议: " ++ jsDisplay (issue.getField "suggestion") ++ "\n\n"
    else "") ++
    (if jsTruthy (issue.getField "code") then
      "示例代码:\n```\n" ++ jsDisplay (issue.getField "code") ++ "\n```\n"
    else "")

/-- Observable outcome of one `reviewSingleFile` run: the returned value
(or propagated error), the diffs sent to the model, and the inline
comments submitted to the platform (file, line, text). -/
structure SingleFileRun where
  outcome : Except String (Option ReviewResult)
  modelCalls : List CodeDiff
  comments : List (String × Option Json × String)
deriving Repr

/-- `CodeReviewer.reviewSingleFile(targetFile)`, modelled over the data it
interacts with: `diffs` is what `platform.getCodeDiffs()` resolved to, and
`reviewCode` is the provider call (`.error` models a thrown error,
`.ok none` a falsy review result).  Comment submission is modelled as
trace collection. -/
def reviewSingleFile (diffs : List CodeDiff)
    (reviewCode : CodeDiff → Except String (Option ReviewResult))
    (targetFile : String) : SingleFileRun :=
  if diffs.length = 0 then ⟨.ok none, [], []⟩
  else
    match diffs.find? fun diff => diff.newPath == targetFile with
    | none => ⟨.ok none, [], []⟩
    | some targetDiff =>
      match reviewCode targetDiff with
      | .error e => ⟨.error e, [targetDiff], []⟩
      | .ok none => ⟨.ok none, [targetDiff], []⟩
      | .ok (some reviewResult) =>
        ⟨.ok (some reviewResult), [targetDiff],
          reviewResult.issues.map fun issue =>
            (targetFile, issue.getField "line", formatIssueComment issue)⟩

/-! ### Predicates used by the claims -/

/-- An issue value carries one of the three legal severities. -/
def issueSeverityValid (i : Json) : Bool :=
  i.getField "severity" == some (Json.str "info") ||
  i.getField "severity" == some (Json.str "warning") ||
  i.getField "severity" == some (Json.str "error")

/-- The three legal severity strings. -/
def validSeverityString (s : String) : Prop :=
  s = "info" ∨ s = "warning" ∨ s = "error"

/-! ## Theorems -/

theorem Issue.toJson_severity (i : Issue) :
    (Issue.toJson i).getField "severity" = some (.str i.severity) := by
  obtain ⟨line, severity, message, suggestion, code⟩ := i
  cases line <;> cases suggestion <;> cases code <;> rfl

theorem issueSeverityValid_toJson {i : Issue} (h : validSeverityString i.severity) :
    issueSeverityValid i.toJson = true := by
  unfold issueSeverityValid
  rw [Issue.toJson_severity]
  rcases h with h | h | h <;> rw [h] <;> rfl

/-- C10: the `file` field of every result equals the `filePath` argument,
whatever the content is — in particular a `file` field in the model's
fenced JSON never overrides it. -/
theorem parseReviewResponse_file (content filePath : String) :
    (parseReviewResponse content filePath).file = filePath := by
  unfold parseReviewResponse
  cases h : strategy1Raw content.data with
  | none => simp
  | some p => obtain ⟨xs, summ⟩ := p; simp

/-- C2 (amended): a captured non-empty fenced block that parses to JSON
with an `issues` array short-circuits the parser: the result is exactly
the file path, the issues array unchanged, and `parsed.summary || ''`
(so a present-but-falsy summary such as `false`, `0` or `null` also
becomes `''`). -/
theorem strategy1_passthrough (content filePath : String) (body : List Char) (j : Json)
    (xs : List Json)
    (h₁ : extractJsonBlock content.data = some body) (h₂ : body ≠ [])
    (h₃ : jsonParse ⟨body⟩ = some j)
    (h₄ : j.getField "issues" = some (.arr xs)) :
    parseReviewResponse content filePath =
      ⟨filePath, xs, jsOr (j.getField "summary") (.str "")⟩ := by
  have hs : strategy1Raw content.data = some (xs, jsOr (j.getField "summary") (.str "")) := by
    unfold strategy1Raw
    rw [h₁]
    simp [h₂, h₃, h₄]
  unfold parseReviewResponse
  rw [hs]

theorem strategy1_passthrough_witness :
    parseReviewResponse "```json\n\x7b\"issues\":[\x7b\"a\":1\x7d],\"summary\":\"ok\"\x7d\n```" "f.ts" =
      ⟨"f.ts", [Json.obj [("a", Json.num 1)]], Json.str "ok"⟩ := by
  have h := strategy1_passthrough
    "```json\n\x7b\"issues\":[\x7b\"a\":1\x7d],\"summary\":\"ok\"\x7d\n```" "f.ts"
    "\x7b\"issues\":[\x7b\"a\":1\x7d],\"summary\":\"ok\"\x7d".data
    (Json.obj [("issues", Json.arr [Json.obj [("a", Json.num 1)]]), ("summary", Json.str "ok")])
    [Json.obj [("a", Json.num 1)]]
    rfl (by decide) (by decide) rfl
  rw [h]
  rfl

/-- C2 counterexample: with a fenced `\x7b"issues":[],"summary":false\x7d`
the claim predicts `summary = false` (the parsed summary, which is
present), but the source computes `parsed.summary || ''`, so the result's
summary is `''`. -/
theorem strategy1_summary_cex :
    (parseReviewResponse "```json\n\x7b\"issues\":[],\"summary\":false\x7d\n```" "f.ts").summary =
      Json.str "" ∧ Json.str "" ≠ Json.bool false := by
  constructor
  · rfl
  · decide

/-- C5: on the claim's own example shape the parser does not produce the
claimed error issue.  The section split `/###\s+/` also matches inside the
`#### ` header (starting at its second `#`), so the level-4 problem block
is severed from its section and Strategy 2 extracts nothing; Strategy 3
then matches at the colon, producing a single issue with severity `info`,
no line number, and the text after the colon as message. -/
theorem strategy2_split_bug :
    (parseReviewResponse "### 🔴 严重问题\n\n#### 第12行: missing null check" "test.ts").issues =
      [Json.obj [("severity", Json.str "info"), ("message", Json.str "missing null check")]] ∧
    (Json.obj [("severity", Json.str "info"),
      ("message", Json.str "missing null check")]).getField "severity" ≠
        some (Json.str "error") ∧
    (Json.obj [("severity", Json.str "info"),
      ("message", Json.str "missing null check")]).getField "line" = none := by
  refine ⟨?_, by decide, rfl⟩
  decide

/-- C6: when Strategy 1 falls through and Strategies 2 and 3 produce no
issues but the trimmed text is non-empty, the result has exactly one
issue: severity `info`, the fixed message `审查反馈`, and the whole trimmed
text as suggestion. -/
theorem strategy4_degenerate_only (content filePath : String)
    (h₁ : strategy1Raw content.data = none)
    (h₂ : strategy2Issues content.data = [])
    (h₃ : strategy3Issues content.data = [])
    (h₄ : jsTrim content ≠ "") :
    (parseReviewResponse content filePath).issues =
      [Issue.toJson ⟨none, "info", "审查反馈", some (jsTrim content), none⟩] := by
  unfold parseReviewResponse
  rw [h₁]
  simp [h₂, h₃, h₄, degenerateIssue]

theorem strategy4_degenerate_only_witness :
    (parseReviewResponse "hello" "f.ts").issues =
      [Issue.toJson ⟨none, "info", "审查反馈", some (jsTrim "hello"), none⟩] :=
  strategy4_degenerate_only "hello" "f.ts" rfl rfl rfl (by decide)

theorem classifySeverity_valid (s : List Char) : validSeverityString (classifySeverity s) := by
  unfold classifySeverity validSeverityString
  split
  · exact .inr (.inr rfl)
  · split
    · exact .inr (.inl rfl)
    · exact .inl rfl

theorem strategy2Issues_severity (content : List Char) :
    ∀ i ∈ strategy2Issues content, validSeverityString i.severity := by
  intro i hi
  unfold strategy2Issues at hi
  simp only [List.mem_flatten, List.mem_map] at hi
  obtain ⟨block, ⟨sec, _, rfl⟩, hblock⟩ := hi
  by_cases hm : sectionHasMarker sec = true
  · rw [if_pos hm] at hblock
    simp only [List.mem_map] at hblock
    obtain ⟨m, _, rfl⟩ := hblock
    exact classifySeverity_valid sec
  · rw [if_neg hm] at hblock
    cases hblock

theorem bracketSev_valid {r : List Char} {p : String × List Char}
    (h : bracketSev r = some p) : p.1 = "error" ∨ p.1 = "warning" ∨ p.1 = "info" := by
  unfold bracketSev at h
  split_ifs at h <;> cases h <;> simp

theorem strategy3TailAt_severity {rest : List Char} {k : Nat}
    {res : Option String × List Char × List Char}
    (h : strategy3TailAt rest k = some res) :
    res.1 = none ∨ res.1 = some "error" ∨ res.1 = some "warning" ∨ res.1 = some "info" := by
  unfold strategy3TailAt at h
  cases hb : bracketSev (rest.drop k) with
  | none =>
    simp only [hb] at h
    obtain ⟨a, -, rfl⟩ := Option.map_eq_some'.mp h
    exact .inl rfl
  | some p =>
    obtain ⟨sev, r'⟩ := p
    simp only [hb] at h
    cases hw : wsGroupMsg r' with
    | none =>
      simp only [hw] at h
      obtain ⟨a, -, rfl⟩ := Option.map_eq_some'.mp h
      exact .inl rfl
    | some q =>
      obtain ⟨msg, rest'⟩ := q
      simp only [hw] at h
      injection h with h
      subst h
      rcases bracketSev_valid hb with hv | hv | hv <;> subst hv
      · exact .inr (.inl rfl)
      · exact .inr (.inr (.inl rfl))
      · exact .inr (.inr (.inr rfl))

theorem strategy3TailGo_severity {rest : List Char} {k : Nat}
    {res : Option String × List Char × List Char}
    (h : strategy3TailGo rest k = some res) :
    res.1 = none ∨ res.1 = some "error" ∨ res.1 = some "warning" ∨ res.1 = some "info" := by
  induction k with
  | zero => exact strategy3TailAt_severity h
  | succ k ih =>
    unfold strategy3TailGo at h
    cases ha : strategy3TailAt rest (k + 1) with
    | some a =>
      simp only [ha, Option.orElse] at h
      injection h with h
      subst h
      exact strategy3TailAt_severity ha
    | none =>
      simp only [ha, Option.orElse] at h
      exact ih h

theorem strategy3TryAt_severity {cs : List Char}
    {res : Option Nat × Option String × List Char × List Char}
    (h : strategy3TryAt cs = some res) :
    res.2.1 = none ∨ res.2.1 = some "error" ∨ res.2.1 = some "warning" ∨
      res.2.1 = some "info" := by
  unfold strategy3TryAt at h
  cases hf : strategy3Front cs with
  | none => simp only [hf] at h; cases h
  | some p =>
    obtain ⟨line, afterColon⟩ := p
    simp only [hf] at h
    cases hg : strategy3TailGo afterColon (afterColon.takeWhile jsWs).length with
    | none => simp only [hg] at h; cases h
    | some r =>
      obtain ⟨sev, msg, rest'⟩ := r
      simp only [hg] at h
      injection h with h
      subst h
      exact strategy3TailGo_severity hg

theorem strategy3Scan_severity (fuel : Nat) :
    ∀ cs : List Char, ∀ i ∈ strategy3Scan fuel cs, validSeverityString i.severity := by
  induction fuel with
  | zero => intro cs i hi; cases hi
  | succ fuel ih =>
    intro cs i hi
    cases cs with
    | nil => cases hi
    | cons c rest =>
      unfold strategy3Scan at hi
      cases ht : strategy3TryAt (c :: rest) with
      | none =>
        simp only [ht] at hi
        exact ih rest i hi
      | some r =>
        obtain ⟨line, sev, msg, rest'⟩ := r
        simp only [ht] at hi
        rcases List.mem_cons.mp hi with rfl | hi
        · rcases strategy3TryAt_severity ht with hv | hv | hv | hv <;>
            simp only at hv <;> rw [hv] <;>
            first
              | exact .inl rfl
              | exact .inr (.inr rfl)
              | exact .inr (.inl rfl)
        · exact ih rest' i hi

theorem strategy3Issues_severity (content : List Char) :
    ∀ i ∈ strategy3Issues content, validSeverityString i.severity :=
  strategy3Scan_severity (content.length + 1) content

/-- C1 (amended): the parser is total (the model is a total function: every
throwing operation of the source sits inside the inner `catch`, and the
outer error branch is unreachable), and every issue produced by the
markdown, line-scan and degenerate strategies carries a severity among
`info`/`warning`/`error`; an issue can escape this only by being passed
through verbatim from a fenced JSON `issues` array by Strategy 1, which
performs no validation. -/
theorem parseReviewResponse_severity (content filePath : String) :
    ∀ i ∈ (parseReviewResponse content filePath).issues,
      issueSeverityValid i = true ∨
        ∃ p, strategy1Raw content.data = some p ∧ i ∈ p.1 := by
  intro i hi
  unfold parseReviewResponse at hi
  cases h : strategy1Raw content.data with
  | some p =>
    rw [h] at hi
    obtain ⟨xs, summ⟩ := p
    exact .inr ⟨(xs, summ), rfl, hi⟩
  | none =>
    rw [h] at hi
    left
    obtain ⟨issue, hmem, rfl⟩ := List.mem_map.mp hi
    apply issueSeverityValid_toJson
    by_cases h2 : strategy2Issues content.data = []
    · rw [if_pos h2] at hmem
      split at hmem
      · rcases List.mem_singleton.mp hmem with rfl
        exact .inl rfl
      · exact strategy3Issues_severity content.data issue hmem
    · rw [if_neg h2] at hmem
      split at hmem
      · rcases List.mem_singleton.mp hmem with rfl
        exact .inl rfl
      · exact strategy2Issues_severity content.data issue hmem

theorem parseReviewResponse_severity_witness :
    issueSeverityValid (Issue.toJson ⟨none, "info", "审查反馈", some (jsTrim "hello"), none⟩) = true ∨
      ∃ p, strategy1Raw "hello".data = some p ∧
        Issue.toJson ⟨none, "info", "审查反馈", some (jsTrim "hello"), none⟩ ∈ p.1 :=
  parseReviewResponse_severity "hello" "f.ts"
    (Issue.toJson ⟨none, "info", "审查反馈", some (jsTrim "hello"), none⟩) (by decide)

/-- C1 counterexample: a fenced JSON issue whose severity is `banana` is
returned untransformed, so the result carries a severity that is none of
`info`/`warning`/`error` (and the response text is plain text plus a code
fence — nothing pathological). -/
theorem parseSeverity_cex :
    (parseReviewResponse
        "```json\n\x7b\"issues\":[\x7b\"severity\":\"banana\",\"message\":\"x\"\x7d]\x7d\n```"
        "a.ts").issues =
      [Json.obj [("severity", Json.str "banana"), ("message", Json.str "x")]] ∧
    issueSeverityValid (Json.obj [("severity", Json.str "banana"), ("message", Json.str "x")]) =
      false := by
  constructor
  · decide
  · decide

theorem decide_length_pos (l : List String) : decide (l.length > 0) = !l.isEmpty := by
  cases l <;> simp

theorem filterKeep_eq_claim (cfg : ReviewConfig) (path : String) :
    filterKeep cfg path = claimFilterDecision cfg path := by
  obtain ⟨igf, igp, inc, exc⟩ := cfg
  unfold filterKeep claimFilterDecision
  cases igf <;> cases igp <;> cases inc <;> cases exc <;>
    simp [decide_length_pos]

/-- C3: the filter keeps exactly the diffs whose `newPath` survives the
claim's priority cascade (ignore-file patterns, then ignore-path prefixes,
then include patterns, then exclude patterns); in particular a path that
matches an ignore-file pattern is excluded even when it also matches an
include pattern. -/
theorem filterDiffs_claim (cfg : ReviewConfig) (diffs : List CodeDiff) :
    filterDiffs cfg diffs = diffs.filter (fun d => claimFilterDecision cfg d.newPath) ∧
    ∀ d ∈ diffs, ∀ ifs ips, cfg.ignoreFiles = some ifs → cfg.includePatterns = some ips →
      matchPatterns d.newPath ifs = true → matchPatterns d.newPath ips = true →
      d ∉ filterDiffs cfg diffs := by
  constructor
  · unfold filterDiffs
    exact List.filter_congr fun d _ => filterKeep_eq_claim cfg d.newPath
  · intro d _ ifs ips hifs hips hmi _ hmem
    unfold filterDiffs at hmem
    obtain ⟨-, hkeep⟩ := List.mem_filter.mp hmem
    rw [filterKeep_eq_claim] at hkeep
    unfold claimFilterDecision at hkeep
    simp [hifs, hmi] at hkeep

theorem filterDiffs_claim_witness :
    (⟨"v.min.js", "v.min.js", "", "", "", none⟩ : CodeDiff) ∉
      filterDiffs ⟨some ["*.min.js"], none, some ["*.js"], none⟩
        [⟨"v.min.js", "v.min.js", "", "", "", none⟩] :=
  (filterDiffs_claim ⟨some ["*.min.js"], none, some ["*.js"], none⟩
      [⟨"v.min.js", "v.min.js", "", "", "", none⟩]).2
    ⟨"v.min.js", "v.min.js", "", "", "", none⟩ (by simp) ["*.min.js"] ["*.js"]
    rfl rfl (by decide) (by decide)

theorem RMatches_star_iff {ts : List RToken} {cs : List Char} :
    RMatches (.star :: ts) cs ↔
      ∃ k, k ≤ (cs.takeWhile fun c => !lineTerminator c).length ∧
        RMatches ts (cs.drop k) := by
  constructor
  · intro h
    induction cs with
    | nil =>
      cases h with
      | starEmpty h' => exact ⟨0, by simp, h'⟩
    | cons c cs ih =>
      cases h with
      | starEmpty h' => exact ⟨0, by simp, h'⟩
      | starCons hc h' =>
        obtain ⟨k, hk, hm⟩ := ih h'
        refine ⟨k + 1, ?_, by simpa using hm⟩
        simp only [List.takeWhile_cons, hc, Bool.not_false, if_pos, List.length_cons]
        omega
  · rintro ⟨k, hk, hm⟩
    induction k generalizing cs with
    | zero => exact .starEmpty (by simpa using hm)
    | succ k ih =>
      cases cs with
      | nil => simp at hk
      | cons c cs' =>
        cases hc : lineTerminator c with
        | false =>
          refine .starCons hc (ih ?_ (by simpa using hm))
          simp only [List.takeWhile_cons, hc, Bool.not_false, if_pos, List.length_cons] at hk
          omega
        | true =>
          exfalso
          simp [List.takeWhile_cons, hc] at hk

theorem globMatch_iff (ts : List RToken) :
    ∀ cs : List Char, globMatch ts cs = true ↔ RMatches ts cs := by
  induction ts with
  | nil =>
    intro cs
    cases cs with
    | nil => simpa [globMatch] using RMatches.nil
    | cons c cs =>
      simp only [globMatch, List.isEmpty_cons]
      constructor
      · intro h; cases h
      · intro h; cases h
  | cons t ts ih =>
    cases t with
    | lit c =>
      intro cs
      cases cs with
      | nil =>
        simp only [globMatch]
        constructor
        · intro h; cases h
        · intro h; cases h
      | cons d ds =>
        simp only [globMatch, Bool.and_eq_true, decide_eq_true_eq, ih]
        constructor
        · rintro ⟨rfl, hm⟩; exact .lit hm
        · intro h; cases h with | lit hm => exact ⟨rfl, hm⟩
    | star =>
      intro cs
      simp only [globMatch, List.any_eq_true, List.mem_range, Nat.lt_succ_iff, ih,
        RMatches_star_iff]

/-- C4: a pattern containing `*` matches exactly the strings accepted by
the anchored regular expression in which `.` is a literal and each `*` is
`.*` (the `RMatches` semantics of its token list, where `.*` matches only
characters that are not line terminators: the source builds its `RegExp`
without the `s` flag), and a pattern without `*` matches exactly the path
equal to it as a string.  Stated for patterns whose characters other than
`*` and the escaped `.` carry no regular-expression meaning, which is the
scope within which the glob model is the compiled regex. -/
theorem matchesPattern_spec (pattern path : String)
    (_hplain : ∀ c ∈ pattern.data, c = '*' ∨ c = '.' ∨ regexPlainChar c = true) :
    (pattern.data.contains '*' = true →
      (matchesPattern pattern path = true ↔ RMatches (patternTokens pattern) path.data)) ∧
    (pattern.data.contains '*' = false →
      (matchesPattern pattern path = true ↔ path = pattern)) := by
  constructor
  · intro hstar
    unfold matchesPattern
    rw [if_pos hstar]
    exact globMatch_iff _ _
  · intro hnostar
    unfold matchesPattern
    rw [if_neg (by rw [hnostar]; simp)]
    simp

theorem matchesPattern_spec_witness :
    (∀ c ∈ ("*.min.js" : String).data, c = '*' ∨ c = '.' ∨ regexPlainChar c = true) ∧
    ("*.min.js" : String).data.contains '*' = true ∧
    (matchesPattern "*.min.js" "vendor/app.min.js" = true ↔
      RMatches (patternTokens "*.min.js") ("vendor/app.min.js" : String).data) :=
  ⟨by decide, by decide,
    (matchesPattern_spec "*.min.js" "vendor/app.min.js" (by decide)).1 (by decide)⟩

/-- C9: when no diff's `newPath` equals the target (including the empty
diff list), `reviewSingleFile` returns the empty outcome `null` without
raising, with no model invocation and no comment submitted. -/
theorem reviewSingleFile_notFound (diffs : List CodeDiff)
    (reviewCode : CodeDiff → Except String (Option ReviewResult)) (targetFile : String)
    (h : ∀ d ∈ diffs, d.newPath ≠ targetFile) :
    reviewSingleFile diffs reviewCode targetFile = ⟨.ok none, [], []⟩ := by
  unfold reviewSingleFile
  have hf : (diffs.find? fun diff => diff.newPath == targetFile) = none := by
    apply List.find?_eq_none.mpr
    intro d hd
    simp [h d hd]
  by_cases hl : diffs.length = 0 <;> simp [hl, hf]

theorem reviewSingleFile_notFound_witness :
    reviewSingleFile [⟨"a.ts", "a.ts", "", "", "", none⟩] (fun _ => .ok none) "other.ts" =
      ⟨.ok none, [], []⟩ :=
  reviewSingleFile_notFound [⟨"a.ts", "a.ts", "", "", "", none⟩] (fun _ => .ok none) "other.ts"
    (by decide)

theorem totalIssues_eq_sum (results : List ReviewResult) :
    totalIssues results = (results.map fun r => r.issues.length).sum := by
  suffices h : ∀ a, results.foldl (fun sum r => sum + r.issues.length) a =
      a + (results.map fun r => r.issues.length).sum by
    simpa using h 0
  induction results with
  | nil => intro a; simp
  | cons r rs ih =>
    intro a
    simp only [List.foldl_cons, List.map_cons, List.sum_cons, ih]
    omega

theorem issues_empty_of_totalIssues_zero {results : List ReviewResult}
    (h : totalIssues results = 0) : ∀ r ∈ results, r.issues = [] := by
  rw [totalIssues_eq_sum] at h
  intro r hr
  have := List.sum_eq_zero_iff.mp h r.issues.length (List.mem_map_of_mem _ hr)
  exact List.length_eq_zero.mp this

theorem severityPercent_zero : severityPercent 0 0 = .num 0 := by
  unfold severityPercent jsDivNat JsNum.mul100 JsNum.orZero jsMathRound
  norm_num

theorem render_num_zero : JsNum.render (.num 0) = "0" := by
  unfold JsNum.render
  norm_num
  rfl

/-- C7: with a total issue count of `0`, every per-severity percentage in
the `severityDistribution` text of `buildSummaryPrompt` renders as `0` —
the `NaN` of `0 / 0` is caught by `|| 0` and never reaches the rendered
string. -/
theorem severityDistribution_zero (results : List ReviewResult)
    (h : totalIssues results = 0) :
    severityDistributionText results =
      "严重问题: 0个 (0%)\n警告: 0个 (0%)\n信息: 0个 (0%)" := by
  have hall : (results.map fun r => r.issues).flatten = [] := by
    rw [List.flatten_eq_nil_iff]
    intro l hl
    obtain ⟨r, hr, rfl⟩ := List.mem_map.mp hl
    exact issues_empty_of_totalIssues_zero h r hr
  unfold severityDistributionText
  simp only [h, hall]
  rw [show issuesWithSeverity "error" [] = [] from rfl,
    show issuesWithSeverity "warning" [] = [] from rfl,
    show issuesWithSeverity "info" [] = [] from rfl]
  simp only [List.length_nil, severityPercent_zero, render_num_zero]
  rfl

theorem severityDistribution_zero_witness :
    totalIssues [⟨"a.ts", [], Json.str "fine"⟩] = 0 ∧
    severityDistributionText [⟨"a.ts", [], Json.str "fine"⟩] =
      "严重问题: 0个 (0%)\n警告: 0个 (0%)\n信息: 0个 (0%)" :=
  ⟨rfl, severityDistribution_zero [⟨"a.ts", [], Json.str "fine"⟩] rfl⟩

theorem getSubstitution_no_dollar (matched pre post : List Char) :
    ∀ repl : List Char, '$' ∉ repl → getSubstitution matched pre post repl = repl := by
  intro repl
  induction repl with
  | nil => intro; rfl
  | cons c rest ih =>
    intro h
    rw [List.mem_cons] at h
    push_neg at h
    obtain ⟨h₁, h₂⟩ := h
    cases rest with
    | nil => rfl
    | cons c₂ r₂ =>
      unfold getSubstitution
      rw [if_neg (by exact fun hc => h₁ hc.symm)]
      rw [ih h₂]

theorem jsReplace_plain (s pat repl : String) (h : '$' ∉ repl.data) :
    jsReplace s pat repl = replaceFirstPlain s pat repl := by
  unfold jsReplace replaceFirstPlain
  cases hsp : splitFirst pat.data s.data with
  | none => rfl
  | some p => simp [getSubstitution_no_dollar _ _ _ _ h]

/-- C8 (amended): a truthy custom review template undergoes three
successive first-occurrence substitutions, in order `{{language}}`, then
`{{filePath}}`, then `{{diffContent}}`, each operating on the result of
the previous one (JavaScript `String.replace`; stated here for
substitution values without `$`, which `replace` would expand).  A value
that itself contains placeholder text is therefore subject to the later
substitutions, which is what the counterexample exploits; unmatched
placeholders are left unchanged (`replaceFirstPlain` returns its input
when the placeholder does not occur). -/
theorem buildReviewPrompt_custom (tpl language : String) (diff : CodeDiff)
    (htpl : tpl ≠ "")
    (h₁ : '$' ∉ language.data) (h₂ : '$' ∉ diff.newPath.data)
    (h₃ : '$' ∉ diff.diffContent.data) :
    buildReviewPrompt ⟨none, some tpl, none⟩ diff language =
      replaceFirstPlain (replaceFirstPlain (replaceFirstPlain tpl
        "\x7b\x7blanguage\x7d\x7d" language) "\x7b\x7bfilePath\x7d\x7d" diff.newPath)
        "\x7b\x7bdiffContent\x7d\x7d" diff.diffContent := by
  unfold buildReviewPrompt
  rw [show (PromptsConfig.mk none (some tpl) none).review.getD "" = tpl from rfl]
  rw [if_pos htpl]
  rw [jsReplace_plain _ _ _ h₁, jsReplace_plain _ _ _ h₂, jsReplace_plain _ _ _ h₃]

theorem buildReviewPrompt_custom_witness :
    buildReviewPrompt
        ⟨none, some "review \x7b\x7blanguage\x7d\x7d: \x7b\x7bdiffContent\x7d\x7d", none⟩
        ⟨"a.ts", "a.ts", "", "", "DIFF", none⟩ "TypeScript" =
      replaceFirstPlain (replaceFirstPlain (replaceFirstPlain
        "review \x7b\x7blanguage\x7d\x7d: \x7b\x7bdiffContent\x7d\x7d"
        "\x7b\x7blanguage\x7d\x7d" "TypeScript") "\x7b\x7bfilePath\x7d\x7d" "a.ts")
        "\x7b\x7bdiffContent\x7d\x7d" "DIFF" :=
  buildReviewPrompt_custom "review \x7b\x7blanguage\x7d\x7d: \x7b\x7bdiffContent\x7d\x7d"
    "TypeScript" ⟨"a.ts", "a.ts", "", "", "DIFF", none⟩ (by decide) (by decide) (by decide)
    (by decide)

/-- C8 counterexample: template `{{language}} {{filePath}}` with the
language value `{{filePath}}` and file path `X`.  The claim (replace the
first occurrence of each placeholder of the template, leave later
occurrences unchanged) predicts `{{filePath}} X`; the source's sequential
replaces substitute the injected placeholder first and leave the
template's own `{{filePath}}` in place, yielding `X {{filePath}}`. -/
theorem buildReviewPrompt_cex :
    buildReviewPrompt ⟨none, some "\x7b\x7blanguage\x7d\x7d \x7b\x7bfilePath\x7d\x7d", none⟩
        ⟨"", "X", "", "", "d", none⟩ "\x7b\x7bfilePath\x7d\x7d" =
      "X \x7b\x7bfilePath\x7d\x7d" ∧
    ("X \x7b\x7bfilePath\x7d\x7d" : String) ≠ "\x7b\x7bfilePath\x7d\x7d X" := by
  constructor
  · rfl
  · decide

end AiCodeReview
